import Mathlib

/-!
Verification of the timesheet application (`src/timesheet.py`).

The embedding models:
* times of day as seconds since midnight (`Nat`, `< 86400`); the database
  stores them as zero-padded `"HH:MM:SS"` strings (`List Char`), exactly as
  `strftime("%H:%M:%S")` produces and `strptime(_, '%H:%M:%S')` consumes;
* the `timesheet` and `employees` tables as lists of rows;
* the `last_update.txt` marker file as `Option ℚ` (`none` = file absent),
  its content a Unix timestamp;
* wall-clock inputs (`datetime.now(IST)`) as explicit parameters.
-/

namespace Timesheet

/-- An ASCII digit character, as produced by `strftime` zero padding. -/
def digitChar (n : Nat) : Char := Char.ofNat (48 + n)

/-- Two-digit zero-padded decimal rendering (`%H`, `%M`, `%S`). -/
def fmt2 (n : Nat) : List Char := [digitChar (n / 10), digitChar (n % 10)]

/-- `now.strftime("%H:%M:%S")` applied to `t` seconds after midnight. -/
def timeStr (t : Nat) : List Char :=
  fmt2 (t / 3600) ++ ':' :: (fmt2 (t % 3600 / 60) ++ ':' :: fmt2 (t % 60))

/-- Numeric value of an ASCII digit character. -/
def parseDigit (c : Char) : Nat := c.toNat - 48

/-- `datetime.strptime(s, '%H:%M:%S').time()`, as seconds since midnight.
`strptime` raises on input not matching the pattern; that branch is
unreachable here (the engine only parses `strftime` output) and is modelled
by the default value `0`. -/
def parseTime (s : List Char) : Nat :=
  match s with
  | [h1, h2, ':', m1, m2, ':', s1, s2] =>
      (parseDigit h1 * 10 + parseDigit h2) * 3600 +
      (parseDigit m1 * 10 + parseDigit m2) * 60 +
      (parseDigit s1 * 10 + parseDigit s2)
  | _ => 0

/-- Python string comparison `s < t`: lexicographic on code points. -/
def strLt : List Char → List Char → Bool
  | [], [] => false
  | [], _ :: _ => true
  | _ :: _, [] => false
  | a :: as, b :: bs => if a < b then true else if b < a then false else strLt as bs

/-- Python `min(b, a)`-style binary minimum under `strLt` (keeps the
earlier element on ties, as `Series.min` folding does). -/
def binMinStr (a b : List Char) : List Char := if strLt b a then b else a

/-- `emp_entries['submission_time'].min()`: the minimum of a nonempty list
of strings under Python string order (pandas returns NaN on an empty
series; the engine guards emptiness before calling, so `[]` yields the
junk value `[]`). -/
def strMin (l : List (List Char)) : List Char :=
  match l with
  | [] => []
  | x :: xs => xs.foldl binMinStr x

/-- A row of the `employees` table (`employee_id` is UNIQUE; `password`
holds the hash). -/
structure Employee where
  employee_id : String
  name : String
  password : String
deriving DecidableEq

/-- A row of the `timesheet` table. `submission_date` is an abstract day
number, `submission_time` the stored TEXT time. -/
structure TimesheetRow where
  employee_id : String
  project_name : String
  task_description : String
  hours_worked : ℚ
  submission_date : Nat
  submission_time : List Char
deriving DecidableEq

/-- One row of the joined query in `get_timesheet_entries_today`. -/
structure JoinedRow where
  employee_id : String
  name : String
  project_name : String
  task_description : String
  hours_worked : ℚ
  submission_date : Nat
  submission_time : List Char
deriving DecidableEq

/-- One row of the dataframe built by `get_attendance_status`. -/
structure StatusRow where
  employee_id : String
  name : String
  status : String
deriving DecidableEq

/-- The persistent state: both tables plus the `last_update.txt` file
(`none` when the file does not exist). -/
structure AppState where
  employees : List Employee
  timesheet : List TimesheetRow
  marker : Option ℚ
deriving DecidableEq

/-- The wall clock at one moment: time of day in seconds (`strftime`
input) and the Unix timestamp (`now.timestamp()`). -/
structure Now where
  tod : Nat
  ts : ℚ
deriving DecidableEq

/-- `add_timesheet_entry` (lines 97-108): INSERT the row, then overwrite
`last_update.txt` with `str(now.timestamp())`. No validation happens here. -/
def add_timesheet_entry (eid proj task : String) (hours : ℚ) (entry_date : Nat)
    (now : Now) (s : AppState) : AppState :=
  { s with
    timesheet := s.timesheet ++
      [⟨eid, proj, task, hours, entry_date, timeStr now.tod⟩],
    marker := some now.ts }

/-- Lines 107-108 in isolation: the marker write performed by every
mutation. The file is overwritten unconditionally with `t`. -/
def markUpdated (t : ℚ) (_m : Option ℚ) : Option ℚ := some t

/-- `get_last_update_time` (lines 138-143): the file content, or the
sentinel `0.0` when the file does not exist (or fails to parse). -/
def get_last_update_time (m : Option ℚ) : ℚ := m.getD 0

/-- A sequence of marker writes with timestamps `ts`, from marker state `m0`. -/
def runMarks (m0 : Option ℚ) (ts : List ℚ) : Option ℚ :=
  ts.foldl (fun m t => markUpdated t m) m0

/-- The JOIN and date filter of `get_timesheet_entries_today` (line 113):
timesheet rows with `submission_date = today`, inner-joined with
`employees` on `employee_id` to pick up the display name. -/
def joinToday (today : Nat) (s : AppState) : List JoinedRow :=
  (s.timesheet.filter (fun t => t.submission_date == today)).flatMap
    (fun t => (s.employees.filter (fun e => e.employee_id == t.employee_id)).map
      (fun e => ⟨t.employee_id, e.name, t.project_name, t.task_description,
                 t.hours_worked, t.submission_date, t.submission_time⟩))

/-- `get_timesheet_entries_today` (lines 110-116): the join, ordered by
`submission_time` DESC (`r a b` = `a`'s time is not below `b`'s). -/
def get_timesheet_entries_today (today : Nat) (s : AppState) : List JoinedRow :=
  List.insertionSort (fun a b => strLt a.submission_time b.submission_time = false)
    (joinToday today s)

/-- The per-employee status computation of `get_attendance_status`
(lines 128-133): `Absent` when the employee has no entry today, else
classify the parsed string-minimum submission time against the two
windows (`time(8,30)` = 30600 s, `time(10,0)` = 36000 s, `time(13,0)` =
46800 s; `datetime.time` ordering coincides with seconds ordering). -/
def computeStatus (empEntries : List JoinedRow) : String :=
  if empEntries.isEmpty then "Absent"
  else
    let first_entry_time := parseTime (strMin (empEntries.map (fun r => r.submission_time)))
    if 30600 ≤ first_entry_time ∧ first_entry_time ≤ 36000 then "Present"
    else if 46800 ≤ first_entry_time then "Half-day"
    else "Present (Late)"

/-- The Time-Window Policy (lines 131-133) as a standalone function of the
earliest time of day. -/
def windowStatus (t : Nat) : String :=
  if 30600 ≤ t ∧ t ≤ 36000 then "Present"
  else if 46800 ≤ t then "Half-day"
  else "Present (Late)"

/-- `get_attendance_status` (lines 118-135): one status row per employee,
in registry order (the early return on an empty registry equals mapping
over the empty list; the query result is pure, so reading it once and
filtering per employee is written inline here). -/
def get_attendance_status (today : Nat) (s : AppState) : List StatusRow :=
  s.employees.map (fun emp =>
    ⟨emp.employee_id, emp.name,
      computeStatus ((get_timesheet_entries_today today s).filter
        (fun r => r.employee_id == emp.employee_id))⟩)

/-- The submission path of `employee_view` (lines 204-212): the form
accepts iff `project_name`, `task_description` are truthy (nonempty) and
`hours_worked > 0`; only then is `add_timesheet_entry` called. The flag
records success (`st.success`) versus rejection (`st.error`). Note no
check of `employee_id` against the registry occurs anywhere on this path. -/
def submitTask (eid proj task : String) (hours : ℚ) (entry_date : Nat)
    (now : Now) (s : AppState) : Bool × AppState :=
  if proj ≠ "" ∧ task ≠ "" ∧ 0 < hours then
    (true, add_timesheet_entry eid proj task hours entry_date now s)
  else (false, s)

/-- String-based earliest-time computation of line 130: lexicographic
minimum of the stored strings, then parse. -/
def firstEntryTime (strs : List (List Char)) : Nat := parseTime (strMin strs)

/-- Reference earliest-time computation: parse every string first, then
take the minimum over time-of-day values. -/
def firstEntryTimeRef (strs : List (List Char)) : Nat :=
  match strs.map parseTime with
  | [] => 0
  | t :: ts => ts.foldl min t

/-- All stored times in a state are `strftime` output of a real time of
day, as the single writer guarantees. -/
def validTimes (s : AppState) : Prop :=
  ∀ r ∈ s.timesheet, ∃ t, t < 86400 ∧ r.submission_time = timeStr t

/-- The same invariant on joined query results. -/
def validRows (l : List JoinedRow) : Prop :=
  ∀ r ∈ l, ∃ t, t < 86400 ∧ r.submission_time = timeStr t

/-! ### Concrete fixtures used by witnesses and counterexamples -/

/-- A registered employee. -/
def aliceE : Employee := ⟨"E1", "Alice", "h1"⟩

/-- A timesheet row submitted by `aliceE` at 09:00:00 on day 0. -/
def rowW : TimesheetRow := ⟨"E1", "P", "T", 8, 0, timeStr 32400⟩

/-- A small populated state: one employee, one row, marker at 5. -/
def sW : AppState := ⟨[aliceE], [rowW], some 5⟩

/-! ### Correspondence between string order and time order -/

theorem strLt_cons (a b : Char) (as bs : List Char) :
    strLt (a :: as) (b :: bs) = if a < b then true else if b < a then false else strLt as bs := rfl

theorem strLt_append (a : List Char) : ∀ (b x y : List Char), a.length = b.length →
    strLt (a ++ x) (b ++ y) = if a = b then strLt x y else strLt a b := by
  induction a with
  | nil =>
    intro b x y h
    cases b with
    | nil => simp
    | cons d ds => simp at h
  | cons c cs ih =>
    intro b x y h
    cases b with
    | nil => simp at h
    | cons d ds =>
      have hlen : cs.length = ds.length := by simpa using h
      simp only [List.cons_append, strLt_cons]
      rcases lt_trichotomy c d with hcd | hcd | hcd
      · have hne : (c :: cs : List Char) ≠ d :: ds := by
          intro he; exact absurd (List.head_eq_of_cons_eq he) (ne_of_lt hcd)
        rw [if_pos hcd, if_neg hne, if_pos hcd]
      · subst hcd
        rw [if_neg (lt_irrefl c), if_neg (lt_irrefl c), if_neg (lt_irrefl c),
          if_neg (lt_irrefl c), ih ds x y hlen]
        by_cases hcs : cs = ds
        · simp [hcs]
        · have hne : (c :: cs : List Char) ≠ c :: ds := by
            intro he; exact hcs (List.tail_eq_of_cons_eq he)
          simp [hcs, hne]
      · have hne : (c :: cs : List Char) ≠ d :: ds := by
          intro he; exact absurd (List.head_eq_of_cons_eq he) (ne_of_gt hcd)
        rw [if_neg (not_lt_of_gt hcd), if_pos hcd, if_neg hne,
          if_neg (not_lt_of_gt hcd), if_pos hcd]

set_option maxRecDepth 10000

theorem fmt2_lt : ∀ x < 100, ∀ y < 100, strLt (fmt2 x) (fmt2 y) = decide (x < y) := by decide

theorem fmt2_inj : ∀ x < 100, ∀ y < 100, (fmt2 x = fmt2 y ↔ x = y) := by decide

theorem parseDigit_digitChar : ∀ n < 10, parseDigit (digitChar n) = n := by decide

theorem strLt_timeStr {a b : Nat} (ha : a < 86400) (hb : b < 86400) :
    strLt (timeStr a) (timeStr b) = decide (a < b) := by
  have hha : a / 3600 < 100 := by omega
  have hhb : b / 3600 < 100 := by omega
  have hma : a % 3600 / 60 < 100 := by omega
  have hmb : b % 3600 / 60 < 100 := by omega
  have hsa : a % 60 < 100 := by omega
  have hsb : b % 60 < 100 := by omega
  unfold timeStr
  rw [strLt_append (fmt2 (a / 3600)) (fmt2 (b / 3600)) _ _ rfl]
  by_cases hh : fmt2 (a / 3600) = fmt2 (b / 3600)
  · have hdiv : a / 3600 = b / 3600 := (fmt2_inj _ hha _ hhb).mp hh
    rw [if_pos hh, strLt_cons, if_neg (lt_irrefl ':'), if_neg (lt_irrefl ':'),
      strLt_append (fmt2 (a % 3600 / 60)) (fmt2 (b % 3600 / 60)) _ _ rfl]
    by_cases hm : fmt2 (a % 3600 / 60) = fmt2 (b % 3600 / 60)
    · have hmin : a % 3600 / 60 = b % 3600 / 60 := (fmt2_inj _ hma _ hmb).mp hm
      rw [if_pos hm, strLt_cons, if_neg (lt_irrefl ':'), if_neg (lt_irrefl ':'),
        fmt2_lt _ hsa _ hsb, decide_eq_decide]
      omega
    · have hmin : a % 3600 / 60 ≠ b % 3600 / 60 := fun he => hm (by rw [he])
      rw [if_neg hm, fmt2_lt _ hma _ hmb, decide_eq_decide]
      omega
  · have hdiv : a / 3600 ≠ b / 3600 := fun he => hh (by rw [he])
    rw [if_neg hh, fmt2_lt _ hha _ hhb, decide_eq_decide]
    omega

theorem parseTime_timeStr {t : Nat} (h : t < 86400) : parseTime (timeStr t) = t := by
  show parseTime (digitChar (t / 3600 / 10) :: digitChar (t / 3600 % 10) :: ':' ::
    digitChar (t % 3600 / 60 / 10) :: digitChar (t % 3600 / 60 % 10) :: ':' ::
    digitChar (t % 60 / 10) :: [digitChar (t % 60 % 10)]) = t
  rw [show ∀ a b c d e f : Char, parseTime (a :: b :: ':' :: c :: d :: ':' :: e :: [f]) =
    (parseDigit a * 10 + parseDigit b) * 3600 + (parseDigit c * 10 + parseDigit d) * 60 +
    (parseDigit e * 10 + parseDigit f) from fun a b c d e f => rfl]
  rw [parseDigit_digitChar _ (by omega), parseDigit_digitChar _ (by omega),
      parseDigit_digitChar _ (by omega), parseDigit_digitChar _ (by omega),
      parseDigit_digitChar _ (by omega), parseDigit_digitChar _ (by omega)]
  omega

theorem binMinStr_timeStr {a b : Nat} (ha : a < 86400) (hb : b < 86400) :
    binMinStr (timeStr a) (timeStr b) = timeStr (min a b) := by
  unfold binMinStr
  rw [strLt_timeStr hb ha]
  rcases Nat.lt_or_ge b a with h | h
  · rw [if_pos (by simpa using h), min_eq_right (Nat.le_of_lt h)]
  · rw [if_neg (by simpa using Nat.not_lt.mpr h), min_eq_left h]

theorem foldl_min_lt : ∀ (ts : List Nat) (a : Nat), a < 86400 → ts.foldl min a < 86400
  | [], _, ha => ha
  | t :: ts, a, ha =>
      foldl_min_lt ts (min a t) (lt_of_le_of_lt (min_le_left a t) ha)

theorem foldl_binMinStr_timeStr :
    ∀ (ts : List Nat) (a : Nat), a < 86400 → (∀ t ∈ ts, t < 86400) →
      (ts.map timeStr).foldl binMinStr (timeStr a) = timeStr (ts.foldl min a)
  | [], _, _, _ => rfl
  | t :: ts, a, ha, hts => by
      simp only [List.map_cons, List.foldl_cons]
      rw [binMinStr_timeStr ha (hts t (List.mem_cons_self t ts))]
      exact foldl_binMinStr_timeStr ts (min a t)
        (lt_of_le_of_lt (min_le_left a t) ha)
        (fun x hx => hts x (List.mem_cons_of_mem t hx))

theorem foldl_min_perm {l l2 : List Nat} (p : l.Perm l2) :
    ∀ a : Nat, l.foldl min a = l2.foldl min a := by
  induction p with
  | nil => intro a; rfl
  | cons x _ ih => intro a; simp only [List.foldl_cons]; exact ih (min a x)
  | swap x y l =>
      intro a
      simp only [List.foldl_cons]
      rw [min_right_comm]
  | trans _ _ ih1 ih2 => intro a; rw [ih1 a, ih2 a]

/-- A list of valid time strings is the `timeStr` image of its parses. -/
theorem map_parse_of_valid : ∀ (l : List (List Char)),
    (∀ s ∈ l, ∃ t, t < 86400 ∧ s = timeStr t) →
    l = (l.map parseTime).map timeStr ∧ ∀ x ∈ l.map parseTime, x < 86400
  | [], _ => ⟨rfl, by simp⟩
  | s :: ss, hv => by
      obtain ⟨t, ht, hs⟩ := hv s (List.mem_cons_self s ss)
      obtain ⟨ih1, ih2⟩ := map_parse_of_valid ss (fun x hx => hv x (List.mem_cons_of_mem s hx))
      refine ⟨?_, ?_⟩
      · simp only [List.map_cons]
        rw [hs, parseTime_timeStr ht, ← ih1]
      · intro x hx
        simp only [List.map_cons, List.mem_cons] at hx
        rcases hx with hx | hx
        · rw [hx, hs, parseTime_timeStr ht]; exact ht
        · exact ih2 x hx

/-- Core refinement: on nonempty lists of well-formed time strings, the
string-based earliest time (lexicographic min, then parse) agrees with the
parse-first reference, and is a real time of day. -/
theorem firstEntryTime_eq_ref {l : List (List Char)} (hne : l ≠ [])
    (hv : ∀ s ∈ l, ∃ t, t < 86400 ∧ s = timeStr t) :
    firstEntryTime l = firstEntryTimeRef l ∧ firstEntryTimeRef l < 86400 := by
  obtain ⟨hmap, hb⟩ := map_parse_of_valid l hv
  cases hl : l.map parseTime with
  | nil =>
      cases l with
      | nil => exact absurd rfl hne
      | cons x xs => simp at hl
  | cons t ts =>
      have hlist : l = timeStr t :: ts.map timeStr := by
        rw [hmap, hl, List.map_cons]
      have ht : t < 86400 := hb t (by rw [hl]; exact List.mem_cons_self t ts)
      have hts : ∀ x ∈ ts, x < 86400 := fun x hx =>
        hb x (by rw [hl]; exact List.mem_cons_of_mem t hx)
      have hbound : ts.foldl min t < 86400 := foldl_min_lt ts t ht
      have hmin : strMin l = timeStr (ts.foldl min t) := by
        rw [hlist]
        show (ts.map timeStr).foldl binMinStr (timeStr t) = _
        exact foldl_binMinStr_timeStr ts t ht hts
      have href : firstEntryTimeRef l = ts.foldl min t := by
        unfold firstEntryTimeRef
        rw [hl]
      refine ⟨?_, by rw [href]; exact hbound⟩
      unfold firstEntryTime
      rw [hmin, href, parseTime_timeStr hbound]

/-- Starting a min-fold at the list head equals folding the whole list
from the neutral-enough seed 86399 (all times are below 86400). -/
theorem foldl_min_head {t : Nat} (ht : t < 86400) (ts : List Nat) :
    ts.foldl min t = (t :: ts).foldl min 86399 := by
  simp only [List.foldl_cons]
  rw [min_eq_right (by omega : t ≤ 86399)]

/-- The reference earliest time is invariant under permutation of
well-formed time strings. -/
theorem firstEntryTimeRef_perm {l l2 : List (List Char)} (hp : l.Perm l2)
    (hv : ∀ s ∈ l, ∃ t, t < 86400 ∧ s = timeStr t) :
    firstEntryTimeRef l = firstEntryTimeRef l2 := by
  have hp2 : (l.map parseTime).Perm (l2.map parseTime) := hp.map parseTime
  obtain ⟨_, hb⟩ := map_parse_of_valid l hv
  unfold firstEntryTimeRef
  cases h1 : l.map parseTime with
  | nil =>
      rw [h1] at hp2
      rw [hp2.symm.eq_nil]
  | cons t ts =>
      cases h2 : l2.map parseTime with
      | nil =>
          rw [h1, h2] at hp2
          exact absurd hp2.eq_nil (by simp)
      | cons t2 ts2 =>
          rw [h1, h2] at hp2
          have ht : t < 86400 := hb t (by rw [h1]; exact List.mem_cons_self t ts)
          have ht2 : t2 < 86400 := by
            refine hb t2 ?_
            rw [h1]
            exact hp2.mem_iff.mpr (List.mem_cons_self t2 ts2)
          show ts.foldl min t = ts2.foldl min t2
          rw [foldl_min_head ht, foldl_min_head ht2]
          exact foldl_min_perm hp2 86399

/-- On a nonempty entry list with well-formed stored times, the engine's
per-employee status is the window classification of the reference
earliest time. -/
theorem computeStatus_valid {l : List JoinedRow} (hne : l ≠ []) (hv : validRows l) :
    computeStatus l =
      windowStatus (firstEntryTimeRef (l.map (fun r => r.submission_time))) := by
  have hvmap : ∀ s ∈ l.map (fun r => r.submission_time), ∃ t, t < 86400 ∧ s = timeStr t := by
    intro s hs
    obtain ⟨r, hr, rfl⟩ := List.mem_map.mp hs
    exact hv r hr
  have hnemap : l.map (fun r => r.submission_time) ≠ [] := by
    cases l with
    | nil => exact absurd rfl hne
    | cons x xs => simp
  obtain ⟨heq, _⟩ := firstEntryTime_eq_ref hnemap hvmap
  unfold computeStatus windowStatus
  rw [if_neg (by simpa [List.isEmpty_iff] using hne)]
  show (if 30600 ≤ firstEntryTime (l.map fun r => r.submission_time) ∧
        firstEntryTime (l.map fun r => r.submission_time) ≤ 36000 then "Present"
      else if 46800 ≤ firstEntryTime (l.map fun r => r.submission_time) then "Half-day"
      else "Present (Late)") = _
  rw [heq]

/-- Every row produced by the today query carries a stored time written
by `strftime`, given the table invariant. -/
theorem validRows_today (today : Nat) (s : AppState) (hv : validTimes s) :
    validRows (get_timesheet_entries_today today s) := by
  intro r hr
  unfold get_timesheet_entries_today at hr
  rw [List.mem_insertionSort] at hr
  unfold joinToday at hr
  rw [List.mem_flatMap] at hr
  obtain ⟨trow, htrow, hr2⟩ := hr
  obtain ⟨e, _, rfl⟩ := List.mem_map.mp hr2
  exact hv trow (List.mem_of_mem_filter htrow)

theorem validRows_filter {l : List JoinedRow} (p : JoinedRow → Bool) (hv : validRows l) :
    validRows (l.filter p) := fun r hr => hv r (List.mem_of_mem_filter hr)

theorem validTimes_sW : validTimes sW := by
  intro r hr
  refine ⟨32400, by decide, ?_⟩
  have hone : r = rowW := by simpa [sW] using hr
  rw [hone]
  rfl

/-! ### Claims -/

/-- C10: the status engine takes the minimum of the `"HH:MM:SS"` strings
lexicographically and parses it; on every nonempty set of zero-padded
time strings this equals the reference computation that parses every
string first and takes the minimum time of day. -/
theorem c10_string_min_refines_time_min (ts : List Nat) (hne : ts ≠ [])
    (hb : ∀ t ∈ ts, t < 86400) :
    firstEntryTime (ts.map timeStr) = firstEntryTimeRef (ts.map timeStr) := by
  refine (firstEntryTime_eq_ref ?_ ?_).1
  · cases ts with
    | nil => exact absurd rfl hne
    | cons x xs => simp
  · intro s hs
    obtain ⟨t, ht, rfl⟩ := List.mem_map.mp hs
    exact ⟨t, hb t ht, rfl⟩

/-- Witness for C10 at the concrete set {10:00:00, 08:30:00}. -/
theorem c10_witness :
    ([36000, 30600] : List Nat) ≠ [] ∧ (∀ t ∈ ([36000, 30600] : List Nat), t < 86400) ∧
    firstEntryTime (([36000, 30600] : List Nat).map timeStr) =
      firstEntryTimeRef (([36000, 30600] : List Nat).map timeStr) :=
  ⟨by decide, by decide, c10_string_min_refines_time_min [36000, 30600] (by decide) (by decide)⟩

/-- C1: for a registered employee with at least one entry dated today,
the computed status is determined solely by the earliest submission time
`t` of that employee's entries: `Present` when `08:30:00 ≤ t ≤ 10:00:00`
(30600–36000 s), `Half-day` when `t ≥ 13:00:00` (46800 s), and
`Present (Late)` otherwise. -/
theorem c1_status_determined_by_earliest (today : Nat) (s : AppState) (i : Nat)
    (hi : i < s.employees.length) (hv : validTimes s)
    (hne : (get_timesheet_entries_today today s).filter
        (fun r => r.employee_id == s.employees[i].employee_id) ≠ []) :
    (get_attendance_status today s)[i]? = some
      ⟨s.employees[i].employee_id, s.employees[i].name,
        windowStatus (firstEntryTimeRef
          (((get_timesheet_entries_today today s).filter
              (fun r => r.employee_id == s.employees[i].employee_id)).map
            (fun r => r.submission_time)))⟩ := by
  unfold get_attendance_status
  rw [List.getElem?_map, List.getElem?_eq_getElem hi]
  simp only [Option.map_some']
  have hvf : validRows ((get_timesheet_entries_today today s).filter
      (fun r => r.employee_id == s.employees[i].employee_id)) :=
    validRows_filter _ (validRows_today today s hv)
  rw [computeStatus_valid hne hvf]

/-- Witness for C1: in `sW` on day 0, Alice's earliest (only) entry is at
09:00:00 and her status row is `Present`. -/
theorem c1_witness :
    validTimes sW ∧
    (get_timesheet_entries_today 0 sW).filter
        (fun r => r.employee_id == (sW.employees.get ⟨0, by decide⟩).employee_id) ≠ [] ∧
    (get_attendance_status 0 sW)[0]? = some ⟨"E1", "Alice", "Present"⟩ := by
  refine ⟨validTimes_sW, by decide, ?_⟩
  rw [c1_status_determined_by_earliest 0 sW 0 (by decide) validTimes_sW (by decide)]
  decide

/-- Rows mapped from employees whose id never equals `idv` are filtered out. -/
theorem filter_map_eq_nil (g : Employee → StatusRow)
    (hg : ∀ x, (g x).employee_id = x.employee_id) (idv : String) :
    ∀ l : List Employee, idv ∉ l.map (fun e => e.employee_id) →
      (l.map g).filter (fun row => row.employee_id == idv) = []
  | [], _ => rfl
  | e :: l, h => by
      simp only [List.map_cons, List.mem_cons, not_or] at h
      obtain ⟨h1, h2⟩ := h
      simp only [List.map_cons, List.filter_cons]
      rw [if_neg (by simp [hg e]; exact fun he => h1 he.symm)]
      exact filter_map_eq_nil g hg idv l h2

/-- Under distinct employee ids, exactly one mapped row matches each
employee's id. -/
theorem count_one_of_nodup (g : Employee → StatusRow)
    (hg : ∀ x, (g x).employee_id = x.employee_id) :
    ∀ (l : List Employee), (l.map (fun e => e.employee_id)).Nodup → ∀ e ∈ l,
      ((l.map g).filter (fun row => row.employee_id == e.employee_id)).length = 1
  | [], _, e, he => absurd he (List.not_mem_nil e)
  | x :: l, hnd, e, he => by
      simp only [List.map_cons, List.nodup_cons] at hnd
      obtain ⟨hx, hl⟩ := hnd
      simp only [List.map_cons, List.filter_cons]
      by_cases hxe : x.employee_id = e.employee_id
      · rw [if_pos (by simp [hg x, hxe])]
        rw [List.length_cons, filter_map_eq_nil g hg e.employee_id l (by rw [← hxe]; exact hx)]
        rfl
      · rw [if_neg (by simp [hg x, hxe])]
        rcases List.mem_cons.mp he with rfl | he2
        · exact absurd rfl hxe
        · exact count_one_of_nodup g hg l hl e he2

/-- C4: the batch status computation is total over the registry: it has
one output row per registered employee, each employee's id appears on
exactly one row (given the UNIQUE id constraint), and an employee with no
entry dated today is assigned `Absent`, never omitted. -/
theorem c4_batch_total (today : Nat) (s : AppState)
    (hnodup : (s.employees.map (fun e => e.employee_id)).Nodup) :
    (get_attendance_status today s).length = s.employees.length ∧
    ∀ e ∈ s.employees,
      ((get_attendance_status today s).filter
          (fun row => row.employee_id == e.employee_id)).length = 1 ∧
      ((get_timesheet_entries_today today s).filter
          (fun r => r.employee_id == e.employee_id) = [] →
        (⟨e.employee_id, e.name, "Absent"⟩ : StatusRow) ∈ get_attendance_status today s) := by
  constructor
  · unfold get_attendance_status
    exact List.length_map _ _
  · intro e he
    constructor
    · exact count_one_of_nodup _ (fun x => rfl) s.employees hnodup e he
    · intro hempty
      unfold get_attendance_status
      refine List.mem_map.mpr ⟨e, he, ?_⟩
      rw [hempty]
      rfl

/-- Witness for C4 on `sW` and a day (1) with no entries: Alice appears
exactly once and is `Absent`. -/
theorem c4_witness :
    (sW.employees.map (fun e => e.employee_id)).Nodup ∧
    ((get_attendance_status 1 sW).length = sW.employees.length ∧
      ∀ e ∈ sW.employees,
        ((get_attendance_status 1 sW).filter
            (fun row => row.employee_id == e.employee_id)).length = 1 ∧
        ((get_timesheet_entries_today 1 sW).filter
            (fun r => r.employee_id == e.employee_id) = [] →
          (⟨e.employee_id, e.name, "Absent"⟩ : StatusRow) ∈ get_attendance_status 1 sW)) :=
  ⟨by decide, c4_batch_total 1 sW (by decide)⟩

/-- C5: on valid entry lists the computed status only depends on the
entry multiset: it is invariant under permutation, and appending an
additional entry whose time is not earlier than the existing minimum
leaves the status unchanged. -/
theorem c5_status_invariance (l l2 : List JoinedRow) (r : JoinedRow) (t : Nat)
    (hv : validRows l) (hne : l ≠ []) (hp : l.Perm l2)
    (ht : t < 86400) (hr : r.submission_time = timeStr t)
    (hlate : firstEntryTimeRef (l.map (fun x => x.submission_time)) ≤ t) :
    computeStatus l2 = computeStatus l ∧
    computeStatus (l ++ [r]) = computeStatus l := by
  have hv2 : validRows l2 := fun x hx => hv x (hp.mem_iff.mpr hx)
  have hne2 : l2 ≠ [] := by
    intro h
    rw [h] at hp
    exact hne hp.eq_nil
  have hvmap : ∀ x ∈ l.map (fun x => x.submission_time), ∃ u, u < 86400 ∧ x = timeStr u := by
    intro x hx
    obtain ⟨rr, hrr, rfl⟩ := List.mem_map.mp hx
    exact hv rr hrr
  constructor
  · rw [computeStatus_valid hne hv, computeStatus_valid hne2 hv2]
    rw [firstEntryTimeRef_perm (hp.map (fun x => x.submission_time)) hvmap]
  · have hvapp : validRows (l ++ [r]) := by
      intro x hx
      rcases List.mem_append.mp hx with hx | hx
      · exact hv x hx
      · rw [List.mem_singleton.mp hx]
        exact ⟨t, ht, hr⟩
    have hneapp : l ++ [r] ≠ [] := by simp
    rw [computeStatus_valid hne hv, computeStatus_valid hneapp hvapp]
    congr 1
    obtain ⟨hmap, hb⟩ := map_parse_of_valid (l.map (fun x => x.submission_time)) hvmap
    cases h1 : (l.map (fun x => x.submission_time)).map parseTime with
    | nil =>
        cases l with
        | nil => exact absurd rfl hne
        | cons a as => simp at h1
    | cons t0 ts =>
        have happ : ((l ++ [r]).map (fun x => x.submission_time)).map parseTime
            = (t0 :: ts) ++ [t] := by
          rw [List.map_append, List.map_append, h1]
          simp only [List.map_cons, List.map_nil, hr, parseTime_timeStr ht]
        have href : firstEntryTimeRef (l.map (fun x => x.submission_time))
            = ts.foldl min t0 := by
          unfold firstEntryTimeRef
          rw [h1]
        have hrefapp : firstEntryTimeRef ((l ++ [r]).map (fun x => x.submission_time))
            = (ts ++ [t]).foldl min t0 := by
          unfold firstEntryTimeRef
          rw [happ]
          rfl
        rw [href, hrefapp, List.foldl_append]
        simp only [List.foldl_cons, List.foldl_nil]
        rw [href] at hlate
        exact min_eq_left hlate

/-- Witness for C5: two entries at 14:00:00 and 15:00:00, permuted, plus
a third at 15:00:00; the status stays the one of the earliest entry. -/
theorem c5_witness :
    validRows [⟨"E1", "Alice", "P", "T", 8, 0, timeStr 50400⟩,
               ⟨"E1", "Alice", "P", "T", 8, 0, timeStr 54000⟩] ∧
    computeStatus [⟨"E1", "Alice", "P", "T", 8, 0, timeStr 54000⟩,
                   ⟨"E1", "Alice", "P", "T", 8, 0, timeStr 50400⟩] =
      computeStatus [⟨"E1", "Alice", "P", "T", 8, 0, timeStr 50400⟩,
                     ⟨"E1", "Alice", "P", "T", 8, 0, timeStr 54000⟩] ∧
    computeStatus ([⟨"E1", "Alice", "P", "T", 8, 0, timeStr 50400⟩,
                    ⟨"E1", "Alice", "P", "T", 8, 0, timeStr 54000⟩] ++
        [⟨"E1", "Alice", "P", "T", 8, 0, timeStr 54000⟩]) =
      computeStatus [⟨"E1", "Alice", "P", "T", 8, 0, timeStr 50400⟩,
                     ⟨"E1", "Alice", "P", "T", 8, 0, timeStr 54000⟩] := by
  have hv : validRows [⟨"E1", "Alice", "P", "T", 8, 0, timeStr 50400⟩,
      ⟨"E1", "Alice", "P", "T", 8, 0, timeStr 54000⟩] := by
    intro r hr
    rcases List.mem_cons.mp hr with h | hr2
    · exact ⟨50400, by decide, by rw [h]⟩
    · exact ⟨54000, by decide, by rw [List.mem_singleton.mp hr2]⟩
  refine ⟨hv, ?_⟩
  exact c5_status_invariance _ _ _ 54000 hv (by decide) (by decide) (by decide) rfl (by decide)

/-- C2 counterexample: from an initial marker of 5, a single write with
timestamp 3 makes the observed marker 3, which is smaller than before the
write and differs from `max(t1, v0) = 5`: the file is overwritten
unconditionally, with no monotonic guard. -/
theorem c2_counterexample :
    get_last_update_time (runMarks (some 5) [3]) = 3 ∧
    get_last_update_time (runMarks (some 5) [3]) < get_last_update_time (some 5) ∧
    get_last_update_time (runMarks (some 5) [3]) ≠
      max 3 (get_last_update_time (some 5)) := by
  refine ⟨rfl, by decide, by decide⟩

/-- C2 (amended): the marker is last-write-wins, not a running maximum:
after a nonempty sequence of writes, reading the marker returns the
timestamp of the LAST write, whatever the earlier writes and the initial
value were; with no writes the marker is unchanged. -/
theorem c2_marker_last_write_wins (m0 : Option ℚ) (ts : List ℚ) (t : ℚ) :
    get_last_update_time (runMarks m0 (ts ++ [t])) = t ∧ runMarks m0 [] = m0 := by
  constructor
  · unfold runMarks
    rw [List.foldl_append]
    rfl
  · rfl

/-- C9: reading the marker when it was never set (the file does not
exist) returns the sentinel `0.0`; otherwise it returns the current
marker value. -/
theorem c9_read_marker_default (v : ℚ) :
    get_last_update_time none = 0 ∧ get_last_update_time (some v) = v :=
  ⟨rfl, rfl⟩

/-- C6 counterexample: with the marker already at 5, a successful append
whose wall-clock timestamp is also 5 (e.g. two submissions within the
clock's resolution) leaves a subsequent read equal to, not strictly
greater than, the pre-append read. -/
theorem c6_counterexample :
    (submitTask "E1" "P" "T" 8 0 ⟨32400, 5⟩ sW).fst = true ∧
    get_last_update_time (submitTask "E1" "P" "T" 8 0 ⟨32400, 5⟩ sW).snd.marker =
      get_last_update_time sW.marker := by
  refine ⟨by decide, by decide⟩

/-- C6 (amended): after a successful append the marker reads exactly the
append's wall-clock timestamp; the read is strictly greater than the
pre-append read exactly when that timestamp exceeds it (which the code
does not enforce). -/
theorem c6_marker_after_successful_append (eid proj task : String) (hours : ℚ)
    (entry_date : Nat) (now : Now) (s : AppState)
    (hok : (submitTask eid proj task hours entry_date now s).fst = true) :
    get_last_update_time (submitTask eid proj task hours entry_date now s).snd.marker
      = now.ts ∧
    (get_last_update_time s.marker < now.ts →
      get_last_update_time s.marker <
        get_last_update_time (submitTask eid proj task hours entry_date now s).snd.marker) := by
  unfold submitTask at hok ⊢
  by_cases h : proj ≠ "" ∧ task ≠ "" ∧ 0 < hours
  · rw [if_pos h]
    exact ⟨rfl, fun hlt => hlt⟩
  · rw [if_neg h] at hok
    simp at hok

/-- Witness for C6 (amended) on `sW` with timestamp 9 (> 5). -/
theorem c6_witness :
    (submitTask "E1" "P" "T" 8 0 ⟨32400, 9⟩ sW).fst = true ∧
    (get_last_update_time (submitTask "E1" "P" "T" 8 0 ⟨32400, 9⟩ sW).snd.marker = 9 ∧
      (get_last_update_time sW.marker < 9 →
        get_last_update_time sW.marker <
          get_last_update_time (submitTask "E1" "P" "T" 8 0 ⟨32400, 9⟩ sW).snd.marker)) :=
  ⟨by decide, c6_marker_after_successful_append "E1" "P" "T" 8 0 ⟨32400, 9⟩ sW (by decide)⟩

/-- C7: a rejected submission is local and non-corrupting: when the
validation fails, the state is returned unchanged: no timesheet row is
written and the marker does not advance. -/
theorem c7_failed_append_non_corrupting (eid proj task : String) (hours : ℚ)
    (entry_date : Nat) (now : Now) (s : AppState)
    (hfail : (submitTask eid proj task hours entry_date now s).fst = false) :
    (submitTask eid proj task hours entry_date now s).snd = s ∧
    (submitTask eid proj task hours entry_date now s).snd.marker = s.marker ∧
    (submitTask eid proj task hours entry_date now s).snd.timesheet = s.timesheet := by
  unfold submitTask at hfail ⊢
  by_cases h : proj ≠ "" ∧ task ≠ "" ∧ 0 < hours
  · rw [if_pos h] at hfail
    simp at hfail
  · rw [if_neg h]
    exact ⟨rfl, rfl, rfl⟩

/-- Witness for C7: a submission with a blank project name is rejected
and leaves `sW` untouched. -/
theorem c7_witness :
    (submitTask "E1" "" "T" 8 0 ⟨32400, 9⟩ sW).fst = false ∧
    ((submitTask "E1" "" "T" 8 0 ⟨32400, 9⟩ sW).snd = sW ∧
      (submitTask "E1" "" "T" 8 0 ⟨32400, 9⟩ sW).snd.marker = sW.marker ∧
      (submitTask "E1" "" "T" 8 0 ⟨32400, 9⟩ sW).snd.timesheet = sW.timesheet) :=
  ⟨by decide, c7_failed_append_non_corrupting "E1" "" "T" 8 0 ⟨32400, 9⟩ sW (by decide)⟩

/-- C3 (code bug): the submission path persists a row whose
`employee_id` ("E2") matches no registered employee: the registry is
never consulted and the declared FOREIGN KEY is not enforced (sqlite3
does not enable foreign keys by default), so the referential-integrity
rejection the claim describes does not happen. Non-positive hours and
blank text fields ARE rejected. -/
theorem c3_unregistered_employee_row_persisted :
    (∀ e ∈ sW.employees, e.employee_id ≠ "E2") ∧
    (submitTask "E2" "P" "T" 8 0 ⟨32400, 7⟩ sW).fst = true ∧
    (⟨"E2", "P", "T", 8, 0, timeStr 32400⟩ : TimesheetRow) ∈
      (submitTask "E2" "P" "T" 8 0 ⟨32400, 7⟩ sW).snd.timesheet ∧
    (submitTask "E2" "P" "T" 0 0 ⟨32400, 7⟩ sW).fst = false ∧
    (submitTask "E2" "" "T" 8 0 ⟨32400, 7⟩ sW).fst = false ∧
    (submitTask "E2" "P" "" 8 0 ⟨32400, 7⟩ sW).fst = false := by
  refine ⟨by decide, by decide, by decide, by decide, by decide, by decide⟩

/-- C8 counterexample: a validated entry accepted with `entry_date` 1 is
persisted but absent from the todays-entries query for day 0: the claim
fails for accepted entries dated other than today. -/
theorem c8_counterexample :
    (submitTask "E1" "P2" "T2" 4 1 ⟨46800, 7⟩ sW).fst = true ∧
    (⟨"E1", "P2", "T2", 4, 1, timeStr 46800⟩ : TimesheetRow) ∈
      (submitTask "E1" "P2" "T2" 4 1 ⟨46800, 7⟩ sW).snd.timesheet ∧
    (⟨"E1", "Alice", "P2", "T2", 4, 1, timeStr 46800⟩ : JoinedRow) ∉
      get_timesheet_entries_today 0 (submitTask "E1" "P2" "T2" 4 1 ⟨46800, 7⟩ sW).snd := by
  refine ⟨by decide, by decide, by decide⟩

/-- C8 (amended): an entry accepted by the append operation whose date IS
today, submitted for a registered employee, is returned by the
todays-entries query with identical field values (id, project, task,
hours, date, stored time string). -/
theorem c8_roundtrip_same_day (eid proj task : String) (hours : ℚ) (today : Nat)
    (now : Now) (s : AppState) (e : Employee) (he : e ∈ s.employees)
    (hid : e.employee_id = eid)
    (hok : (submitTask eid proj task hours today now s).fst = true) :
    (⟨eid, e.name, proj, task, hours, today, timeStr now.tod⟩ : JoinedRow) ∈
      get_timesheet_entries_today today (submitTask eid proj task hours today now s).snd := by
  unfold submitTask at hok ⊢
  by_cases h : proj ≠ "" ∧ task ≠ "" ∧ 0 < hours
  · rw [if_pos h]
    show _ ∈ get_timesheet_entries_today today (add_timesheet_entry eid proj task hours today now s)
    unfold get_timesheet_entries_today
    rw [List.mem_insertionSort]
    unfold joinToday add_timesheet_entry
    rw [List.mem_flatMap]
    refine ⟨⟨eid, proj, task, hours, today, timeStr now.tod⟩, ?_, ?_⟩
    · rw [List.mem_filter]
      refine ⟨by simp, by simp⟩
    · rw [List.mem_map]
      refine ⟨e, ?_, ?_⟩
      · rw [List.mem_filter]
        exact ⟨he, by simp [hid]⟩
      · rfl
  · rw [if_neg h] at hok
    simp at hok

/-- Witness for C8 (amended): a same-day submission by Alice shows up in
the day-0 query. -/
theorem c8_witness :
    aliceE ∈ sW.employees ∧ aliceE.employee_id = "E1" ∧
    (submitTask "E1" "P2" "T2" 4 0 ⟨46800, 7⟩ sW).fst = true ∧
    (⟨"E1", "Alice", "P2", "T2", 4, 0, timeStr 46800⟩ : JoinedRow) ∈
      get_timesheet_entries_today 0 (submitTask "E1" "P2" "T2" 4 0 ⟨46800, 7⟩ sW).snd :=
  ⟨by decide, by decide, by decide,
    c8_roundtrip_same_day "E1" "P2" "T2" 4 0 ⟨46800, 7⟩ sW aliceE (by decide) (by decide)
      (by decide)⟩

end Timesheet
